import Mathlib

/-!
Shallow embedding of the ChatTown conversation tool (src/index.tsx).

The raw ChatGPT archive structures are translated field by field from the
TypeScript interfaces.  JavaScript `undefined`/`null` optional fields become
`Option`; a JSON object's key-ordered entries become an association list;
JavaScript numbers used as timestamps become `Int` (only ordering and
zero-testing of timestamps matter to the program).  JavaScript truthiness is
spelled out at each use site: an empty string and the number 0 are falsy, an
array (even empty) and any object are truthy.
-/

namespace ChatTown

/-- RawChatMessageContent from src/index.tsx: content_type, optional parts, optional text. -/
structure RawChatMessageContent where
  content_type : String
  parts : Option (List String)
  text : Option String
deriving DecidableEq, Repr

/-- RawChatMessageAuthor from src/index.tsx. -/
structure RawChatMessageAuthor where
  role : String
  name : Option String
deriving DecidableEq, Repr

/-- Metadata carried by a raw message; only the visibility flag is consulted. -/
structure RawChatMessageMetadata where
  is_visually_hidden_from_conversation : Option Bool
deriving DecidableEq, Repr

/-- RawChatMessage from src/index.tsx.  `create_time` is `none` when the JSON
field is missing or null (both are falsy under the `||` the code applies). -/
structure RawChatMessage where
  id : String
  author : RawChatMessageAuthor
  create_time : Option Int
  content : RawChatMessageContent
  metadata : Option RawChatMessageMetadata
deriving DecidableEq, Repr

/-- RawChatNode from src/index.tsx: a node of the conversation mapping. -/
structure RawChatNode where
  id : String
  message : Option RawChatMessage
  parent : Option String
  children : List String
deriving DecidableEq, Repr

/-- RawConversation from src/index.tsx.  `mapping` is `none` when the field is
missing; otherwise the object's entries in insertion (iteration) order. -/
structure RawConversation where
  id : String
  title : String
  create_time : Int
  update_time : Int
  mapping : Option (List (String × RawChatNode))
  current_node : Option String
deriving DecidableEq, Repr

/-- Message (processed) from src/index.tsx. -/
structure Message where
  id : String
  authorRole : String
  contentText : String
  createTime : Option Int
deriving DecidableEq, Repr

/-- ProcessedConversation from src/index.tsx. -/
structure ProcessedConversation where
  id : String
  title : String
  createTime : Int
  updateTime : Int
  messages : List Message
  summary : String
  originalData : RawConversation
deriving DecidableEq, Repr

/-- JavaScript `s.toLowerCase()`, character by character (the conversations'
reserved titles and search terms are ASCII, where this agrees with JS). -/
def jsToLower (s : String) : String := (s.data.map Char.toLower).asString

/-- JavaScript `s.trim()`: drop leading and trailing whitespace. -/
def jsTrim (s : String) : String :=
  ((s.data.dropWhile Char.isWhitespace).reverse.dropWhile Char.isWhitespace).reverse.asString

/-- JavaScript `s.substring(0, n)`: the first `n` characters. -/
def jsSubstring (n : Nat) (s : String) : String := (s.data.take n).asString

/-- The reserved generic titles of `generateSummary` (src/index.tsx line 64). -/
def genericTitles : List String := ["new chat", "empty chat", "untitled conversation"]

/-- JavaScript `s.substring(0, n) + (s.length > n ? "..." : "")` as used by
`generateSummary` for both the 150- and 100-character truncations. -/
def truncateWithEllipsis (n : Nat) (s : String) : String :=
  jsSubstring n s ++ (if s.length > n then "..." else "")

/-- The user/assistant fallback chain of `generateSummary` (src/index.tsx
lines 68-76): first user message with non-empty text, else first assistant
message with non-empty text, else the title if non-empty, else a fixed string. -/
def summaryFromMessages (title : String) (messages : List Message) : String :=
  match messages.find? (fun m => m.authorRole == "user" && m.contentText != "") with
  | some m => truncateWithEllipsis 100 m.contentText
  | none =>
    match messages.find? (fun m => m.authorRole == "assistant" && m.contentText != "") with
    | some m => truncateWithEllipsis 100 m.contentText
    | none => if title != "" then title else "No summary available"

/-- generateSummary from src/index.tsx (lines 63-77).  The guard
`title && !genericTitles.includes(title.toLowerCase())` reads: title is a
non-empty string whose lowercasing is not a reserved generic title. -/
def generateSummary (title : String) (messages : List Message) : String :=
  if title != "" && !(genericTitles.contains (jsToLower title)) then
    truncateWithEllipsis 150 title
  else
    summaryFromMessages title messages

/-- Characters removed by `sanitizeFilename`'s second regex
`[/\\?%*:|"<>]` (src/index.tsx line 84). -/
def strippedChar (c : Char) : Bool :=
  c == '/' || c == '\\' || c == '?' || c == '%' || c == '*' ||
  c == ':' || c == '|' || c == '"' || c == '<' || c == '>'

/-- The regex replacement `.replace(/\s+/g, '_')`: each maximal run of
whitespace characters becomes a single underscore. -/
def collapseWhitespace : List Char → List Char
  | [] => []
  | [c] => if c.isWhitespace then ['_'] else [c]
  | c :: d :: ds =>
    if c.isWhitespace then
      (if d.isWhitespace then collapseWhitespace (d :: ds)
       else '_' :: collapseWhitespace (d :: ds))
    else c :: collapseWhitespace (d :: ds)

/-- sanitizeFilename from src/index.tsx (lines 79-86): empty input short-circuits
to a default name; otherwise whitespace runs become underscores, the reserved
filename characters are removed, and the result is cut to 100 characters. -/
def sanitizeFilename (name : String) : String :=
  if name == "" then "untitled_conversation"
  else
    ((((collapseWhitespace name.data).filter (fun c => !(strippedChar c)))).take 100).asString

/-- The sort key `(m.createTime || 0)` of the comparator at src/index.tsx
line 127: a missing timestamp counts as 0. -/
def msgKey (m : Message) : Int := m.createTime.getD 0

/-- One step of the stable sort: insert `m` before the first element whose key
is at least `msgKey m`, as JavaScript's stable `Array.prototype.sort` does with
the comparator `(a.createTime || 0) - (b.createTime || 0)`. -/
def insertMessage (m : Message) : List Message → List Message
  | [] => [m]
  | x :: xs => if msgKey m ≤ msgKey x then m :: x :: xs else x :: insertMessage m xs

/-- `messages.sort((a, b) => (a.createTime || 0) - (b.createTime || 0))` from
src/index.tsx line 127, embedded as a stable insertion sort on the key. -/
def sortMessages : List Message → List Message
  | [] => []
  | m :: ms => insertMessage m (sortMessages ms)

/-- Truthiness of `node.message.metadata?.is_visually_hidden_from_conversation`
(src/index.tsx line 112) for a message already known to be present. -/
def isHiddenMessage (msg : RawChatMessage) : Bool :=
  match msg.metadata with
  | some md => md.is_visually_hidden_from_conversation.getD false
  | none => false

/-- Text resolution of src/index.tsx line 115:
`content.parts ? content.parts.join('') : (content.text || '')` — an array is
truthy even when empty, so a present `parts` always wins. -/
def resolveText (content : RawChatMessageContent) : String :=
  match content.parts with
  | some ps => String.join ps
  | none => content.text.getD ""

/-- The per-node message extraction of src/index.tsx lines 111-124.  The gate
`node.message && node.message.content && (parts || text)` requires a message
whose content carries a `parts` array (truthy even when empty) or a non-empty
`text`; a visually hidden message is dropped; text that trims to empty is
dropped; `createTime` is `create_time || undefined`, so null, missing and 0 all
become `none`. -/
def nodeMessage (node : RawChatNode) : Option Message :=
  match node.message with
  | none => none
  | some msg =>
    if msg.content.parts.isSome || (msg.content.text.getD "") != "" then
      if isHiddenMessage msg then none
      else
        let textContent := resolveText msg.content
        if jsTrim textContent == "" then none
        else
          some { id := msg.id
                 authorRole := msg.author.role
                 contentText := textContent
                 createTime :=
                   match msg.create_time with
                   | some t => if t == 0 then none else some t
                   | none => none }
    else none

/-- `Object.values(conv.mapping).forEach(...)` collecting messages
(src/index.tsx lines 109-125): iterate the mapping's values in insertion order
and keep each node's extracted message. -/
def extractMessages (mapping : List (String × RawChatNode)) : List Message :=
  (mapping.map Prod.snd).filterMap nodeMessage

/-- Validity test of src/index.tsx line 105: `!conv.id || !conv.mapping`
skips the record; a record is kept when its id is a non-empty string and its
mapping object is present. -/
def validRecord (conv : RawConversation) : Bool :=
  conv.id != "" && conv.mapping.isSome

/-- The body of the `jsonData.map` callback of parseConversations
(src/index.tsx lines 104-138): `none` models the `null` of a skipped record. -/
def parseConv (index : Nat) (conv : RawConversation) : Option ProcessedConversation :=
  if conv.id == "" then none
  else
    match conv.mapping with
    | none => none
    | some mapping =>
      let messages := sortMessages (extractMessages mapping)
      let title := if conv.title == "" then "Untitled Conversation" else conv.title
      some { id := if conv.id == "" then "generated-id-" ++ toString index else conv.id
             title := title
             createTime := conv.create_time
             updateTime := conv.update_time
             messages := messages
             summary := generateSummary title messages
             originalData := conv }

/-- Index-carrying recursion equivalent to
`jsonData.map((conv, index) => ...).filter(Boolean)` (src/index.tsx
lines 104-139): skipped records produce nothing, kept records keep their order. -/
def parseConversationsAux (index : Nat) : List RawConversation → List ProcessedConversation
  | [] => []
  | c :: cs =>
    match parseConv index c with
    | none => parseConversationsAux (index + 1) cs
    | some pc => pc :: parseConversationsAux (index + 1) cs

/-- parseConversations from src/index.tsx (lines 99-140), for an input that is
already an array (the non-array case throws and is outside these claims). -/
def parseConversations (jsonData : List RawConversation) : List ProcessedConversation :=
  parseConversationsAux 0 jsonData

/-- The state handleFileUpload leaves behind on a successful parse
(src/index.tsx lines 155-168): the processed list and `initialCount`, which the
code sets to `parsed.length`. -/
structure UploadResult where
  processedConversations : List ProcessedConversation
  initialCount : Nat
deriving DecidableEq, Repr

/-- handleFileUpload's success path (src/index.tsx lines 155-168) on an
already-parsed array: `setProcessedConversations(parsed)` and
`setInitialCount(parsed.length)`. -/
def handleFileUpload (jsonData : List RawConversation) : UploadResult :=
  let parsed := parseConversations jsonData
  { processedConversations := parsed, initialCount := parsed.length }

/-- `stats.total` (src/index.tsx line 245). -/
def statsTotal (r : UploadResult) : Nat := r.initialCount

/-- `stats.processed` (src/index.tsx line 246). -/
def statsProcessed (r : UploadResult) : Nat := r.processedConversations.length

/-- JavaScript `s.includes(sub)`: some suffix of `s` starts with `sub`. -/
def strIncludes (s sub : String) : Bool :=
  (List.range (s.data.length + 1)).any (fun i => sub.data.isPrefixOf (s.data.drop i))

/-- The search predicate of the filtering effect (src/index.tsx lines 184-188):
case-insensitive substring match on title, summary, or any message text. -/
def matchesSearch (lowerSearchTerm : String) (conv : ProcessedConversation) : Bool :=
  strIncludes (jsToLower conv.title) lowerSearchTerm ||
  strIncludes (jsToLower conv.summary) lowerSearchTerm ||
  conv.messages.any (fun msg => strIncludes (jsToLower msg.contentText) lowerSearchTerm)

/-- The filtering effect of src/index.tsx lines 178-190: an empty search term
shows everything, otherwise the case-insensitive substring filter applies. -/
def filterConversations (searchTerm : String)
    (processed : List ProcessedConversation) : List ProcessedConversation :=
  if searchTerm == "" then processed
  else processed.filter (matchesSearch (jsToLower searchTerm))

/-- handleSelectAllVisible (src/index.tsx lines 204-210): the selection set is
modelled by a list read only through membership, so adding the visible ids is
appending them. -/
def selectAllVisible (prev : List String)
    (filtered : List ProcessedConversation) : List String :=
  prev ++ filtered.map ProcessedConversation.id

/-- The subset handleExportSelected passes to exportConversations
(src/index.tsx line 235): processed conversations whose id the selection holds. -/
def selectedSubset (processed : List ProcessedConversation)
    (selection : List String) : List ProcessedConversation :=
  processed.filter (fun conv => selection.contains conv.id)

/-- The export payload of exportConversations (src/index.tsx line 221): each
conversation's untouched `originalData`.  Serializing to JSON and re-parsing is
the identity on this array, so the payload itself models the exported file. -/
def exportData (conversationsToExport : List ProcessedConversation) : List RawConversation :=
  conversationsToExport.map ProcessedConversation.originalData

/-- Concrete message builder used by the witness inputs below. -/
def mkMsg (mid role : String) (t : Option Int) (txt : String) : RawChatMessage :=
  { id := mid
    author := { role := role, name := none }
    create_time := t
    content := { content_type := "text", parts := some [txt], text := none }
    metadata := none }

/-- Concrete node builder used by the witness inputs below. -/
def mkNode (nid : String) (msg : Option RawChatMessage) : RawChatNode :=
  { id := nid, message := msg, parent := none, children := [] }

theorem mem_insertMessage {a m : Message} {l : List Message} :
    a ∈ insertMessage m l ↔ a = m ∨ a ∈ l := by
  induction l with
  | nil => simp [insertMessage]
  | cons x xs ih =>
    by_cases h : msgKey m ≤ msgKey x
    · simp only [insertMessage, if_pos h, List.mem_cons]
    · simp only [insertMessage, if_neg h, List.mem_cons, ih]
      tauto

theorem sorted_insertMessage {m : Message} {l : List Message}
    (h : l.Pairwise (fun a b => msgKey a ≤ msgKey b)) :
    (insertMessage m l).Pairwise (fun a b => msgKey a ≤ msgKey b) := by
  induction l with
  | nil => simp [insertMessage]
  | cons x xs ih =>
    rcases List.pairwise_cons.mp h with ⟨hx, hxs⟩
    by_cases hle : msgKey m ≤ msgKey x
    · rw [insertMessage, if_pos hle]
      refine List.pairwise_cons.mpr ⟨?_, h⟩
      intro b hb
      rcases List.mem_cons.mp hb with rfl | hb
      · exact hle
      · exact le_trans hle (hx b hb)
    · rw [insertMessage, if_neg hle]
      refine List.pairwise_cons.mpr ⟨?_, ih hxs⟩
      intro b hb
      rcases mem_insertMessage.mp hb with rfl | hb
      · exact le_of_not_le hle
      · exact hx b hb

theorem sorted_sortMessages (l : List Message) :
    (sortMessages l).Pairwise (fun a b => msgKey a ≤ msgKey b) := by
  induction l with
  | nil => exact List.Pairwise.nil
  | cons m ms ih => exact sorted_insertMessage ih

theorem filter_insertMessage (t : Int) (m : Message) (l : List Message) :
    (insertMessage m l).filter (fun x => msgKey x == t)
      = (m :: l).filter (fun x => msgKey x == t) := by
  induction l with
  | nil => rfl
  | cons x xs ih =>
    by_cases hle : msgKey m ≤ msgKey x
    · rw [insertMessage, if_pos hle]
    · rw [insertMessage, if_neg hle]
      by_cases hx : msgKey x = t
      · have hm : ¬ msgKey m = t := fun hm => hle (le_of_eq (hm.trans hx.symm))
        simp [List.filter_cons, hx, hm] at ih ⊢
        simpa [List.filter_cons, hm] using ih
      · simp [List.filter_cons, hx] at ih ⊢
        exact ih

theorem filter_sortMessages (t : Int) (l : List Message) :
    (sortMessages l).filter (fun x => msgKey x == t)
      = l.filter (fun x => msgKey x == t) := by
  induction l with
  | nil => rfl
  | cons m ms ih =>
    rw [sortMessages, filter_insertMessage, List.filter_cons, List.filter_cons, ih]

theorem parseConv_messages {i : Nat} {conv : RawConversation}
    {mp : List (String × RawChatNode)} {pc : ProcessedConversation}
    (hmap : conv.mapping = some mp) (h : parseConv i conv = some pc) :
    pc.messages = sortMessages (extractMessages mp) := by
  rw [parseConv, hmap] at h
  by_cases hid : conv.id == ""
  · rw [if_pos hid] at h
    exact absurd h (by simp)
  · rw [if_neg hid] at h
    cases h
    rfl

/-- C1: for every normalized conversation, `messages` is sorted non-decreasing
by `createTime` with a missing timestamp treated as 0 (the key `msgKey`), and
the sort is stable: restricted to any one timestamp value, the sorted list
equals the extraction-order list, so ties keep the encounter order of the raw
mapping's iteration. -/
theorem messages_sorted_and_stable (i : Nat) (conv : RawConversation)
    (mp : List (String × RawChatNode)) (pc : ProcessedConversation)
    (hmap : conv.mapping = some mp) (h : parseConv i conv = some pc) :
    pc.messages.Pairwise (fun a b => msgKey a ≤ msgKey b) ∧
    ∀ t : Int, pc.messages.filter (fun m => msgKey m == t)
      = (extractMessages mp).filter (fun m => msgKey m == t) := by
  have hm := parseConv_messages hmap h
  constructor
  · rw [hm]; exact sorted_sortMessages _
  · intro t; rw [hm]; exact filter_sortMessages t _

/-- Witness conversation: three nodes, timestamps 5, 3, 3, so sorting reorders
and the two timestamp-3 messages tie. -/
def c1mapping : List (String × RawChatNode) :=
  [("n1", mkNode "n1" (some (mkMsg "m1" "user" (some 5) "later"))),
   ("n2", mkNode "n2" (some (mkMsg "m2" "assistant" (some 3) "earlier"))),
   ("n3", mkNode "n3" (some (mkMsg "m3" "user" (some 3) "tie")))]

/-- Witness raw conversation for the sortedness claim. -/
def c1conv : RawConversation :=
  { id := "conv-1", title := "Trip", create_time := 10, update_time := 20,
    mapping := some c1mapping, current_node := none }

/-- The processed record `parseConv 0 c1conv` produces. -/
def c1pc : ProcessedConversation :=
  { id := "conv-1", title := "Trip", createTime := 10, updateTime := 20,
    messages :=
      [{ id := "m2", authorRole := "assistant", contentText := "earlier", createTime := some 3 },
       { id := "m3", authorRole := "user", contentText := "tie", createTime := some 3 },
       { id := "m1", authorRole := "user", contentText := "later", createTime := some 5 }],
    summary := "Trip", originalData := c1conv }

/-- Witness for `messages_sorted_and_stable` at the concrete conversation
`c1conv`, with the stability equation instantiated at timestamp 3. -/
theorem messages_sorted_and_stable_witness :
    c1pc.messages.Pairwise (fun a b => msgKey a ≤ msgKey b) ∧
    c1pc.messages.filter (fun m => msgKey m == (3 : Int))
      = (extractMessages c1mapping).filter (fun m => msgKey m == (3 : Int)) := by
  have h := messages_sorted_and_stable 0 c1conv c1mapping c1pc rfl (by decide)
  exact ⟨h.1, h.2 3⟩

theorem extractMessages_append (l1 l2 : List (String × RawChatNode)) :
    extractMessages (l1 ++ l2) = extractMessages l1 ++ extractMessages l2 := by
  simp [extractMessages, List.map_append, List.filterMap_append]

theorem nodeMessage_of_hidden {node : RawChatNode} {msg : RawChatMessage}
    (hmsg : node.message = some msg) (hhid : isHiddenMessage msg = true) :
    nodeMessage node = none := by
  rw [nodeMessage, hmsg]
  by_cases hgate : (msg.content.parts.isSome || (msg.content.text.getD "") != "") = true
  · simp [hgate, hhid]
  · simp [Bool.not_eq_true] at hgate
    simp [hgate]

/-- C2: a node whose message is marked visually hidden contributes no message:
the normalized message list of any conversation containing such a node equals
the one computed from the mapping with that node removed. -/
theorem hidden_node_contributes_nothing (i : Nat) (conv : RawConversation)
    (pre post : List (String × RawChatNode)) (k : String) (node : RawChatNode)
    (msg : RawChatMessage) (pc : ProcessedConversation)
    (hmap : conv.mapping = some (pre ++ (k, node) :: post))
    (hmsg : node.message = some msg)
    (hhid : isHiddenMessage msg = true)
    (hparse : parseConv i conv = some pc) :
    pc.messages = sortMessages (extractMessages (pre ++ post)) := by
  have hnone : nodeMessage node = none := nodeMessage_of_hidden hmsg hhid
  have hm := parseConv_messages hmap hparse
  rw [hm, extractMessages_append, extractMessages_append]
  have hmid : extractMessages ((k, node) :: post) = extractMessages post := by
    simp [extractMessages, List.filterMap_cons, hnone]
  rw [hmid]

/-- Witness raw message flagged as visually hidden. -/
def c2hiddenMsg : RawChatMessage :=
  { id := "mh", author := { role := "user", name := none }, create_time := some 1,
    content := { content_type := "text", parts := some ["secret"], text := none },
    metadata := some { is_visually_hidden_from_conversation := some true } }

/-- Witness conversation holding one hidden node between two visible ones. -/
def c2conv : RawConversation :=
  { id := "conv-2", title := "Hidden test", create_time := 0, update_time := 0,
    mapping := some
      [("a", mkNode "a" (some (mkMsg "m1" "user" (some 1) "one"))),
       ("b", mkNode "b" (some c2hiddenMsg)),
       ("c", mkNode "c" (some (mkMsg "m2" "assistant" (some 2) "two")))],
    current_node := none }

/-- The processed record `parseConv 0 c2conv` produces. -/
def c2pc : ProcessedConversation :=
  { id := "conv-2", title := "Hidden test", createTime := 0, updateTime := 0,
    messages :=
      [{ id := "m1", authorRole := "user", contentText := "one", createTime := some 1 },
       { id := "m2", authorRole := "assistant", contentText := "two", createTime := some 2 }],
    summary := "Hidden test", originalData := c2conv }

/-- Witness for `hidden_node_contributes_nothing`: dropping the hidden node of
`c2conv` leaves the normalized messages unchanged. -/
theorem hidden_node_contributes_nothing_witness :
    c2pc.messages = sortMessages (extractMessages
      [("a", mkNode "a" (some (mkMsg "m1" "user" (some 1) "one"))),
       ("c", mkNode "c" (some (mkMsg "m2" "assistant" (some 2) "two")))]) :=
  hidden_node_contributes_nothing 0 c2conv
    [("a", mkNode "a" (some (mkMsg "m1" "user" (some 1) "one")))]
    [("c", mkNode "c" (some (mkMsg "m2" "assistant" (some 2) "two")))]
    "b" (mkNode "b" (some c2hiddenMsg)) c2hiddenMsg c2pc rfl rfl (by decide) (by decide)

/-- C3: generateSummary's strict precedence.  When the title is non-empty and
its lowercasing is not a reserved generic title, the result is the title
truncated to 150 characters with an ellipsis exactly when it was longer.
Otherwise, when a first user message with non-empty text exists, the result is
that message's text truncated to 100 characters with an ellipsis exactly when
it was longer. -/
theorem generateSummary_precedence (title : String) (msgs : List Message) :
    (title ≠ "" → genericTitles.contains (jsToLower title) = false →
      generateSummary title msgs
        = jsSubstring 150 title ++ (if title.length > 150 then "..." else "")) ∧
    (∀ fu : Message,
      (title = "" ∨ genericTitles.contains (jsToLower title) = true) →
      msgs.find? (fun m => m.authorRole == "user" && m.contentText != "") = some fu →
      generateSummary title msgs
        = jsSubstring 100 fu.contentText
            ++ (if fu.contentText.length > 100 then "..." else "")) := by
  constructor
  · intro hne hcon
    rw [generateSummary]
    have hcon' : jsToLower title ∉ genericTitles := by simpa using hcon
    have hb : (title != "" && !(genericTitles.contains (jsToLower title))) = true := by
      simp [hne, hcon']
    rw [if_pos hb]
    rfl
  · intro fu hgen hfind
    rw [generateSummary]
    have hb : (title != "" && !(genericTitles.contains (jsToLower title))) = false := by
      rcases hgen with rfl | hcon
      · simp
      · have hcon' : jsToLower title ∈ genericTitles := by simpa using hcon
        simp [hcon']
    rw [if_neg (by rw [hb]; exact Bool.false_ne_true), summaryFromMessages, hfind]
    rfl

/-- Witness user message for the summary-precedence claim. -/
def c3userMsg : Message :=
  { id := "u1", authorRole := "user", contentText := "hello there", createTime := none }

/-- Witness for `generateSummary_precedence`: a non-generic title wins over the
messages, and the generic title "New Chat" falls through to the first user
message's text. -/
theorem generateSummary_precedence_witness :
    generateSummary "Project Plan" [c3userMsg] = "Project Plan" ∧
    generateSummary "New Chat" [c3userMsg] = "hello there" := by
  constructor
  · exact ((generateSummary_precedence "Project Plan" [c3userMsg]).1
      (by decide) (by decide)).trans (by decide)
  · exact ((generateSummary_precedence "New Chat" [c3userMsg]).2 c3userMsg
      (Or.inr (by decide)) (by decide)).trans (by decide)

/-- Witness raw message whose create_time is exactly 0. -/
def c4msg : RawChatMessage := mkMsg "m0" "user" (some 0) "hello"

/-- Witness node carrying `c4msg`. -/
def c4node : RawChatNode := mkNode "n0" (some c4msg)

/-- C4 counterexample: a raw message with `create_time = 0` survives extraction
but its produced Message has no `createTime` at all — `create_time || undefined`
treats 0 as falsy — contradicting the claim that a raw 0 yields `createTime = 0`. -/
theorem createTime_zero_dropped :
    c4node.message = some c4msg ∧ c4msg.create_time = some 0 ∧
    (nodeMessage c4node).map Message.createTime = some none ∧
    (nodeMessage c4node).map Message.createTime ≠ some (some 0) := by
  refine ⟨rfl, rfl, by decide, by decide⟩

/-- C4 amended: for a surviving node, the produced Message's `createTime`
equals the raw `create_time` whenever that is present and non-zero, while a
missing, null or zero `create_time` yields an absent `createTime`. -/
theorem createTime_preserved_when_nonzero (node : RawChatNode)
    (msg : RawChatMessage) (m : Message)
    (hmsg : node.message = some msg) (hnm : nodeMessage node = some m) :
    (∀ t : Int, msg.create_time = some t → t ≠ 0 → m.createTime = some t) ∧
    ((msg.create_time = none ∨ msg.create_time = some 0) → m.createTime = none) := by
  simp only [nodeMessage, hmsg] at hnm
  by_cases hgate : (msg.content.parts.isSome || (msg.content.text.getD "") != "") = true
  · rw [if_pos hgate] at hnm
    by_cases hhid : isHiddenMessage msg = true
    · simp [hhid] at hnm
    · rw [if_neg hhid] at hnm
      by_cases htrim : (jsTrim (resolveText msg.content) == "") = true
      · simp only [htrim, if_true] at hnm
        exact absurd hnm (by simp)
      · rw [if_neg htrim] at hnm
        cases hnm
        constructor
        · intro t ht hnz
          simp [ht, hnz]
        · rintro (h0 | h0) <;> simp [h0]
  · rw [if_neg hgate] at hnm
    exact absurd hnm (by simp)

/-- Witness node with a present, non-zero create_time. -/
def c4node7 : RawChatNode := mkNode "n7" (some (mkMsg "m7" "user" (some 7) "hi"))

/-- Witness for `createTime_preserved_when_nonzero` at a node whose raw
create_time is 7 and at the zero-timestamp node of the counterexample. -/
theorem createTime_preserved_when_nonzero_witness :
    ({ id := "m7", authorRole := "user", contentText := "hi",
       createTime := some 7 } : Message).createTime = some 7 := by
  exact (createTime_preserved_when_nonzero c4node7 (mkMsg "m7" "user" (some 7) "hi")
    { id := "m7", authorRole := "user", contentText := "hi", createTime := some 7 }
    rfl (by decide)).1 7 rfl (by decide)

theorem parseConv_index_independent (i j : Nat) (conv : RawConversation) :
    parseConv i conv = parseConv j conv := by
  by_cases hid : (conv.id == "") = true
  · simp [parseConv, hid]
  · simp [parseConv, hid]

theorem parseConv_isSome_eq_valid (i : Nat) (conv : RawConversation) :
    (parseConv i conv).isSome = validRecord conv := by
  rw [parseConv, validRecord]
  by_cases hid : (conv.id == "") = true
  · have hne : (conv.id != "") = false := by simpa using hid
    rw [if_pos hid]
    simp [hne]
  · have hne : (conv.id != "") = true := by simpa using hid
    rw [if_neg hid]
    cases hmp : conv.mapping with
    | none => simp [hne]
    | some mp => simp [hne]

theorem parseConv_originalData {i : Nat} {conv : RawConversation}
    {pc : ProcessedConversation} (h : parseConv i conv = some pc) :
    pc.originalData = conv ∧ pc.id = conv.id := by
  rw [parseConv] at h
  by_cases hid : (conv.id == "") = true
  · rw [if_pos hid] at h
    exact absurd h (by simp)
  · rw [if_neg hid] at h
    cases hmp : conv.mapping with
    | none => rw [hmp] at h; exact absurd h (by simp)
    | some mp =>
      rw [hmp] at h
      cases h
      exact ⟨rfl, by simp [hid]⟩

theorem parseConversationsAux_index (i j : Nat) (l : List RawConversation) :
    parseConversationsAux i l = parseConversationsAux j l := by
  induction l generalizing i j with
  | nil => rfl
  | cons c cs ih =>
    rw [parseConversationsAux, parseConversationsAux, parseConv_index_independent i j]
    cases parseConv j c with
    | none => exact ih _ _
    | some pc => rw [ih (i + 1) (j + 1)]

theorem length_parseConversationsAux (i : Nat) (l : List RawConversation) :
    (parseConversationsAux i l).length = l.countP validRecord := by
  induction l generalizing i with
  | nil => rfl
  | cons c cs ih =>
    rw [parseConversationsAux, List.countP_cons]
    have hv := parseConv_isSome_eq_valid i c
    cases hp : parseConv i c with
    | none =>
      rw [hp] at hv
      simp only [Option.isSome_none] at hv
      rw [ih, ← hv]
      simp
    | some pc =>
      rw [hp] at hv
      simp only [Option.isSome_some] at hv
      simp [List.length_cons, ih, ← hv]

theorem map_originalData_parseConversationsAux (i : Nat) (l : List RawConversation) :
    (parseConversationsAux i l).map ProcessedConversation.originalData
      = l.filter validRecord := by
  induction l generalizing i with
  | nil => rfl
  | cons c cs ih =>
    rw [parseConversationsAux, List.filter_cons]
    have hv := parseConv_isSome_eq_valid i c
    cases hp : parseConv i c with
    | none =>
      rw [hp] at hv
      simp only [Option.isSome_none] at hv
      rw [ih, ← hv]
      simp
    | some pc =>
      rw [hp] at hv
      simp only [Option.isSome_some] at hv
      simp [← hv, ih, (parseConv_originalData hp).1]

theorem map_id_parseConversationsAux (i : Nat) (l : List RawConversation) :
    (parseConversationsAux i l).map ProcessedConversation.id
      = (l.filter validRecord).map RawConversation.id := by
  induction l generalizing i with
  | nil => rfl
  | cons c cs ih =>
    rw [parseConversationsAux, List.filter_cons]
    have hv := parseConv_isSome_eq_valid i c
    cases hp : parseConv i c with
    | none =>
      rw [hp] at hv
      simp only [Option.isSome_none] at hv
      rw [ih, ← hv]
      simp
    | some pc =>
      rw [hp] at hv
      simp only [Option.isSome_some] at hv
      simp [← hv, ih, (parseConv_originalData hp).2]

/-- C6: for every archive, processed ≤ total, processed equals the number of
records with a non-empty id and a present mapping, and the surviving records
keep the input array's order (witnessed by the id sequence agreeing with the
validity-filtered input). -/
theorem processed_counts_and_order (jsonData : List RawConversation) :
    statsProcessed (handleFileUpload jsonData) ≤ statsTotal (handleFileUpload jsonData) ∧
    statsProcessed (handleFileUpload jsonData) = jsonData.countP validRecord ∧
    (parseConversations jsonData).map ProcessedConversation.id
      = (jsonData.filter validRecord).map RawConversation.id :=
  ⟨le_refl _, length_parseConversationsAux 0 jsonData, map_id_parseConversationsAux 0 jsonData⟩

/-- Archive with a single record that is skipped for lacking a non-empty id. -/
def c5archive : List RawConversation :=
  [{ id := "", title := "no id", create_time := 0, update_time := 0,
     mapping := some [], current_node := none }]

/-- C5 evaluation at the failing input: the uploaded array holds one raw
record, yet the code's `total` counter — `initialCount`, set from
`parsed.length` after the skip filter — reports 0, not the pre-validation
count 1 the claim requires. -/
theorem total_excludes_skipped_records :
    c5archive.length = 1 ∧ statsTotal (handleFileUpload c5archive) = 0 ∧
    statsTotal (handleFileUpload c5archive) ≠ c5archive.length :=
  ⟨rfl, rfl, by decide⟩

theorem mem_collapseWhitespace_not_ws :
    ∀ (l : List Char), ∀ c ∈ collapseWhitespace l, c.isWhitespace = false
  | [] => by
    intro c hc
    simp [collapseWhitespace] at hc
  | [a] => by
    intro c hc
    by_cases ha : a.isWhitespace = true
    · simp only [collapseWhitespace, if_pos ha, List.mem_singleton] at hc
      subst hc
      decide
    · simp only [collapseWhitespace, if_neg ha, List.mem_singleton] at hc
      subst hc
      simpa using ha
  | a :: d :: ds => by
    intro c hc
    have ih := mem_collapseWhitespace_not_ws (d :: ds)
    by_cases ha : a.isWhitespace = true
    · by_cases hd : d.isWhitespace = true
      · rw [collapseWhitespace, if_pos ha, if_pos hd] at hc
        exact ih c hc
      · rw [collapseWhitespace, if_pos ha, if_neg hd] at hc
        rcases List.mem_cons.mp hc with rfl | hc
        · decide
        · exact ih c hc
    · rw [collapseWhitespace, if_neg ha] at hc
      rcases List.mem_cons.mp hc with rfl | hc
      · simpa using ha
      · exact ih c hc

/-- C7 counterexample: the code maps "My/Chat: Plans?" to "MyChat_Plans" (the
slash is stripped, not turned into an underscore), not to the claimed
"My_Chat_Plans"; and an input of only stripped characters yields "", not the
claimed "untitled_conversation" (the default fires on empty input only). -/
theorem sanitizeFilename_examples_diverge :
    sanitizeFilename "My/Chat: Plans?" = "MyChat_Plans" ∧
    sanitizeFilename "My/Chat: Plans?" ≠ "My_Chat_Plans" ∧
    sanitizeFilename "???" = "" ∧
    sanitizeFilename "???" ≠ "untitled_conversation" :=
  ⟨by decide, by decide, by decide, by decide⟩

/-- C7 amended: sanitizeFilename returns "untitled_conversation" exactly on
empty input; on non-empty input it collapses each whitespace run to one
underscore, strips the reserved filename characters, and truncates to 100
characters — so the result has at most 100 characters, none of which is
whitespace or a stripped character.  In particular "My/Chat: Plans?" maps to
"MyChat_Plans". -/
theorem sanitizeFilename_amended (name : String) :
    (name = "" → sanitizeFilename name = "untitled_conversation") ∧
    (name ≠ "" →
      sanitizeFilename name
        = (((collapseWhitespace name.data).filter (fun c => !(strippedChar c))).take 100).asString ∧
      (sanitizeFilename name).length ≤ 100 ∧
      ∀ c ∈ (sanitizeFilename name).data,
        c.isWhitespace = false ∧ strippedChar c = false) := by
  constructor
  · intro h
    subst h
    rfl
  · intro h
    have hne : ¬((name == "") = true) := by simpa using h
    refine ⟨by rw [sanitizeFilename, if_neg hne], ?_, ?_⟩
    · rw [sanitizeFilename, if_neg hne]
      show (((collapseWhitespace name.data).filter (fun c => !(strippedChar c))).take 100).length ≤ 100
      rw [List.length_take]
      exact min_le_left _ _
    · intro c hc
      rw [sanitizeFilename, if_neg hne] at hc
      have hc' : c ∈ (collapseWhitespace name.data).filter (fun c => !(strippedChar c)) :=
        List.take_subset _ _ hc
      have hm := List.mem_filter.mp hc'
      exact ⟨mem_collapseWhitespace_not_ws _ c hm.1, by simpa using hm.2⟩

/-- Witness for `sanitizeFilename_amended` at the empty string and at "a b". -/
theorem sanitizeFilename_amended_witness :
    sanitizeFilename "" = "untitled_conversation" ∧
    (sanitizeFilename "a b").length ≤ 100 :=
  ⟨(sanitizeFilename_amended "").1 rfl, ((sanitizeFilename_amended "a b").2 (by decide)).2.1⟩

theorem parseConversationsAux_cons (i : Nat) (c : RawConversation)
    (cs : List RawConversation) :
    parseConversationsAux i (c :: cs)
      = match parseConv i c with
        | none => parseConversationsAux (i + 1) cs
        | some pc => pc :: parseConversationsAux (i + 1) cs := rfl

theorem parseConversationsAux_filter_valid (i : Nat) (l : List RawConversation) :
    parseConversationsAux i (l.filter validRecord) = parseConversationsAux i l := by
  induction l generalizing i with
  | nil => rfl
  | cons c cs ih =>
    rw [List.filter_cons]
    have hv := parseConv_isSome_eq_valid i c
    cases hp : parseConv i c with
    | none =>
      rw [hp] at hv
      simp only [Option.isSome_none] at hv
      have hvf : validRecord c = false := hv.symm
      simp only [hvf, parseConversationsAux_cons, hp, Bool.false_eq_true, if_false]
      calc parseConversationsAux i (cs.filter validRecord)
          = parseConversationsAux i cs := ih i
        _ = parseConversationsAux (i + 1) cs := parseConversationsAux_index i (i + 1) cs
    | some pc =>
      rw [hp] at hv
      simp only [Option.isSome_some] at hv
      have hvt : validRecord c = true := hv.symm
      simp [hvt, parseConversationsAux_cons, hp]
      rw [ih (i + 1)]

theorem selectedSubset_all (processed : List ProcessedConversation) :
    selectedSubset processed (processed.map ProcessedConversation.id) = processed := by
  rw [selectedSubset]
  apply List.filter_eq_self.mpr
  intro pc hpc
  simpa [List.elem_eq_mem] using List.mem_map_of_mem ProcessedConversation.id hpc

/-- C8: uploading an archive, selecting everything visible under the empty
query, exporting the selected subset as the raw `originalData` array, and
re-uploading that export reproduces the upload state exactly — the same
processed count and identical normalized conversations. -/
theorem roundtrip_export_reupload (jsonData : List RawConversation) :
    handleFileUpload
      (exportData
        (selectedSubset (handleFileUpload jsonData).processedConversations
          (selectAllVisible []
            (filterConversations "" (handleFileUpload jsonData).processedConversations))))
      = handleFileUpload jsonData := by
  have hfilter : filterConversations "" (handleFileUpload jsonData).processedConversations
      = (handleFileUpload jsonData).processedConversations := rfl
  have hsel : selectAllVisible [] (handleFileUpload jsonData).processedConversations
      = (handleFileUpload jsonData).processedConversations.map ProcessedConversation.id := rfl
  rw [hfilter, hsel, selectedSubset_all]
  have hexp : exportData (handleFileUpload jsonData).processedConversations
      = jsonData.filter validRecord := map_originalData_parseConversationsAux 0 jsonData
  rw [hexp]
  have hparse : parseConversations (jsonData.filter validRecord) = parseConversations jsonData :=
    parseConversationsAux_filter_valid 0 jsonData
  show UploadResult.mk (parseConversations (jsonData.filter validRecord))
      (parseConversations (jsonData.filter validRecord)).length
    = UploadResult.mk (parseConversations jsonData) (parseConversations jsonData).length
  rw [hparse]

theorem nodeMessage_congr {n1 n2 : RawChatNode} (h : n1.message = n2.message) :
    nodeMessage n1 = nodeMessage n2 := by
  rw [nodeMessage, nodeMessage, h]

theorem extractMessages_cons (p : String × RawChatNode)
    (mp : List (String × RawChatNode)) :
    extractMessages (p :: mp)
      = match nodeMessage p.2 with
        | none => extractMessages mp
        | some m => m :: extractMessages mp := by
  cases hnm : nodeMessage p.2 with
  | none => simp [extractMessages, List.filterMap_cons, hnm]
  | some m => simp [extractMessages, List.filterMap_cons, hnm]

theorem extractMessages_congr {mp1 mp2 : List (String × RawChatNode)}
    (h : List.Forall₂ (fun a b => a.1 = b.1 ∧ a.2.id = b.2.id ∧ a.2.message = b.2.message)
      mp1 mp2) :
    extractMessages mp1 = extractMessages mp2 := by
  induction h with
  | nil => rfl
  | cons hab hrest ih =>
    rw [extractMessages_cons, extractMessages_cons, nodeMessage_congr hab.2.2, ih]

/-- C9: two raw conversations identical except for the `parent` and `children`
fields of their mapping's nodes (same ids, titles, times, same keys in the same
order, same node ids and messages) normalize to the same message list and the
same summary: extraction never follows the graph links. -/
theorem topology_irrelevant (i : Nat) (ca cb : RawConversation)
    (mpa mpb : List (String × RawChatNode))
    (hid : ca.id = cb.id) (htitle : ca.title = cb.title)
    (hct : ca.create_time = cb.create_time) (hut : ca.update_time = cb.update_time)
    (hma : ca.mapping = some mpa) (hmb : cb.mapping = some mpb)
    (hnodes : List.Forall₂
      (fun a b => a.1 = b.1 ∧ a.2.id = b.2.id ∧ a.2.message = b.2.message) mpa mpb) :
    (parseConv i ca).map (fun pc => (pc.messages, pc.summary))
      = (parseConv i cb).map (fun pc => (pc.messages, pc.summary)) := by
  have hmsg : extractMessages mpa = extractMessages mpb := extractMessages_congr hnodes
  simp only [parseConv, hma, hmb, hid, htitle, hmsg]
  by_cases hcbid : cb.id = ""
  · simp [hcbid]
  · simp [hcbid]

/-- Witness conversation whose single node has no parent and one child. -/
def c9convA : RawConversation :=
  { id := "c9", title := "Graph", create_time := 1, update_time := 2,
    mapping := some [("r", { id := "r", message := some (mkMsg "m" "user" (some 1) "hi"),
                             parent := none, children := ["x"] })],
    current_node := none }

/-- The same conversation with the node's parent and children changed. -/
def c9convB : RawConversation :=
  { id := "c9", title := "Graph", create_time := 1, update_time := 2,
    mapping := some [("r", { id := "r", message := some (mkMsg "m" "user" (some 1) "hi"),
                             parent := some "p0", children := [] })],
    current_node := none }

/-- Witness for `topology_irrelevant`: rewiring parent/children of `c9convA`
leaves messages and summary unchanged. -/
theorem topology_irrelevant_witness :
    (parseConv 0 c9convA).map (fun pc => (pc.messages, pc.summary))
      = (parseConv 0 c9convB).map (fun pc => (pc.messages, pc.summary)) :=
  topology_irrelevant 0 c9convA c9convB
    [("r", { id := "r", message := some (mkMsg "m" "user" (some 1) "hi"),
             parent := none, children := ["x"] })]
    [("r", { id := "r", message := some (mkMsg "m" "user" (some 1) "hi"),
             parent := some "p0", children := [] })]
    rfl rfl rfl rfl rfl rfl
    (List.Forall₂.cons ⟨rfl, rfl, rfl⟩ List.Forall₂.nil)

theorem generateSummary_untitled (msgs : List Message) :
    generateSummary "Untitled Conversation" msgs
      = summaryFromMessages "Untitled Conversation" msgs := by
  rw [generateSummary, if_neg]
  have hcon : genericTitles.contains (jsToLower "Untitled Conversation") = true := by decide
  rw [hcon]
  simp

/-- C10: a surviving record with an empty title is normalized with the literal
title "Untitled Conversation", and since that title lowercases to a reserved
generic title, its summary is computed by the message-based fallback chain. -/
theorem untitled_title_and_fallback (i : Nat) (conv : RawConversation)
    (pc : ProcessedConversation) (htitle : conv.title = "")
    (h : parseConv i conv = some pc) :
    pc.title = "Untitled Conversation" ∧
    pc.summary = summaryFromMessages "Untitled Conversation" pc.messages := by
  rw [parseConv] at h
  by_cases hid : (conv.id == "") = true
  · rw [if_pos hid] at h
    exact absurd h (by simp)
  · rw [if_neg hid] at h
    cases hmp : conv.mapping with
    | none => rw [hmp] at h; exact absurd h (by simp)
    | some mp =>
      rw [hmp] at h
      cases h
      constructor
      · simp [htitle]
      · simp [htitle, generateSummary_untitled]

/-- Witness raw conversation with an empty title and one user message. -/
def c10conv : RawConversation :=
  { id := "c10", title := "", create_time := 0, update_time := 0,
    mapping := some [("n", mkNode "n" (some (mkMsg "m" "user" (some 1) "question")))],
    current_node := none }

/-- The processed record `parseConv 0 c10conv` produces. -/
def c10pc : ProcessedConversation :=
  { id := "c10", title := "Untitled Conversation", createTime := 0, updateTime := 0,
    messages :=
      [{ id := "m", authorRole := "user", contentText := "question", createTime := some 1 }],
    summary := "question", originalData := c10conv }

/-- Witness for `untitled_title_and_fallback` at `c10conv`. -/
theorem untitled_title_and_fallback_witness :
    c10pc.title = "Untitled Conversation" ∧
    c10pc.summary = summaryFromMessages "Untitled Conversation" c10pc.messages :=
  untitled_title_and_fallback 0 c10conv c10pc rfl (by decide)

end ChatTown
